import Mathlib

/-!
Verification of the `aioytt` transcript-extraction library.

The pure core of the library lives in `src/aioytt/video_id.py` and
`src/aioytt/transcript.py`.  This file gives a shallow embedding of that
core in Lean and proves the specified properties about it.

Conventions of the embedding:

* Python strings are Lean `String`s (sequences of unicode scalar values).
* Python floating-point parsing (`float(s)`) is modelled exactly, with the
  parsed numeric value represented as a rational number `ℚ` instead of an
  IEEE double; the claims under verification only concern which attribute
  is read and which default is applied, not rounding.
* Python standard-library text helpers used by the source
  (`str.split`, `str.strip`, `urllib.parse.parse_qs`, `html.unescape`,
  `xml.etree.ElementTree`, `json.loads`) are external collaborators of the
  core; they are modelled here on their documented behaviour at the points
  the source relies on (each model carries a doc comment saying what is
  modelled and which corners are out of scope).
* Python exceptions become `Except` values; each raise site of the source
  gets its own constructor, so distinct error kinds stay distinguishable.
-/

/-! ## Python string helpers -/

/-- The character class stripped by Python `str.strip()` with no argument,
restricted to the ASCII whitespace characters (space, tab, newline,
carriage return, vertical tab, form feed).  Non-ASCII unicode whitespace
is out of scope for the caption documents under consideration. -/
def pySpace (c : Char) : Bool :=
  c == ' ' || c == '\t' || c == '\n' || c == '\r' ||
    c == Char.ofNat 11 || c == Char.ofNat 12

/-- Python `s.strip()`: remove leading and trailing whitespace. -/
def pyStrip (s : String) : String :=
  String.mk (((s.data.dropWhile pySpace).reverse.dropWhile pySpace).reverse)

/-- Python `s.strip(";")`: remove leading and trailing `';'` characters. -/
def pyStripSemi (s : String) : String :=
  String.mk (((s.data.dropWhile (· == ';')).reverse.dropWhile (· == ';')).reverse)

/-- Python `s.lstrip("/")`: remove leading `'/'` characters only. -/
def pyLstripSlash (s : String) : String :=
  String.mk (s.data.dropWhile (· == '/'))

/-- Boolean prefix test on character lists (`l₁` starts `l₂`). -/
def leadsWith : List Char → List Char → Bool
  | [], _ => true
  | _ :: _, [] => false
  | a :: as, b :: bs => a == b && leadsWith as bs

/-- Worker for `listSplitOn`, structurally recursive on a fuel argument
so that it evaluates inside the kernel; the fuel is always at least the
length of the list being split. -/
def listSplitOnF (sep : List Char) : Nat → List Char → List (List Char)
  | _, [] => [[]]
  | 0, _ :: _ => [[]]
  | fuel + 1, c :: cs =>
    if sep ≠ [] ∧ leadsWith sep (c :: cs) then
      [] :: listSplitOnF sep fuel ((c :: cs).drop sep.length)
    else
      match listSplitOnF sep fuel cs with
      | [] => [[c]]
      | r :: rs => (c :: r) :: rs

/-- Python `s.split(sep)` for a fixed separator, on character lists:
split at every non-overlapping leftmost occurrence of `sep`; the result is
always non-empty, and empty pieces are kept.  (Python raises on an empty
separator; all separators used by the source are non-empty.) -/
def listSplitOn (sep l : List Char) : List (List Char) :=
  listSplitOnF sep l.length l

/-- The fuel of `listSplitOnF` is irrelevant as long as it dominates the
length of the list: every sufficient fuel computes the canonical value. -/
theorem listSplitOnF_eq_canon (sep : List Char) :
    ∀ (n : Nat) (l : List Char) (fuel : Nat), l.length ≤ n → l.length ≤ fuel →
      listSplitOnF sep fuel l = listSplitOnF sep l.length l := by
  intro n
  induction n using Nat.strong_induction_on with
  | _ n IH =>
    intro l fuel hn hf
    cases l with
    | nil => cases fuel <;> rfl
    | cons c cs =>
      cases fuel with
      | zero => simp at hf
      | succ fuel =>
        have hcs : cs.length < n := by
          simp only [List.length_cons] at hn; omega
        by_cases hsep : sep ≠ [] ∧ leadsWith sep (c :: cs)
        · have hlen : 1 ≤ sep.length := by
            cases hs : sep with
            | nil => exact absurd hs hsep.1
            | cons a as => simp
          have hd1 : ((c :: cs).drop sep.length).length ≤ cs.length := by
            simp only [List.length_drop, List.length_cons]; omega
          have hd2 : ((c :: cs).drop sep.length).length ≤ fuel := by
            simp only [List.length_drop, List.length_cons]
            simp only [List.length_cons] at hf
            omega
          simp only [List.length_cons, listSplitOnF, if_pos hsep]
          rw [IH cs.length hcs _ fuel hd1 hd2, IH cs.length hcs _ cs.length hd1 hd1]
        · have h1 : cs.length ≤ fuel := by
            simp only [List.length_cons] at hf; omega
          simp only [List.length_cons, listSplitOnF, if_neg hsep]
          rw [IH cs.length hcs cs fuel (Nat.le_refl _) h1]

/-- Sufficient fuel computes `listSplitOn`. -/
theorem listSplitOnF_eq (sep : List Char) (fuel : Nat) (l : List Char)
    (h : l.length ≤ fuel) : listSplitOnF sep fuel l = listSplitOn sep l :=
  listSplitOnF_eq_canon sep l.length l fuel (Nat.le_refl _) h

/-- Unfolding rule for `listSplitOn` on a non-empty list. -/
theorem listSplitOn_cons (sep : List Char) (c : Char) (cs : List Char) :
    listSplitOn sep (c :: cs) =
      if sep ≠ [] ∧ leadsWith sep (c :: cs) then
        [] :: listSplitOn sep ((c :: cs).drop sep.length)
      else
        match listSplitOn sep cs with
        | [] => [[c]]
        | r :: rs => (c :: r) :: rs := by
  by_cases hsep : sep ≠ [] ∧ leadsWith sep (c :: cs)
  · have hlen : 1 ≤ sep.length := by
      cases hs : sep with
      | nil => exact absurd hs hsep.1
      | cons a as => simp
    simp only [listSplitOn, List.length_cons, listSplitOnF, if_pos hsep]
    rw [listSplitOnF_eq sep cs.length _
      (by simp only [List.length_drop, List.length_cons]; omega)]
    rfl
  · simp only [listSplitOn, List.length_cons, listSplitOnF, if_neg hsep]

/-- Python `s.split(sep)` on strings. -/
def pySplit (sep s : String) : List String :=
  (listSplitOn sep.data s.data).map String.mk

/-- Python `s.endswith(suffix)`. -/
def pyEndswith (s suffix : String) : Bool :=
  suffix.data.isSuffixOf s.data

/-- Python `s.split(c, 1)` when at least one occurrence of `c` exists:
returns the part before the first `c` and everything after it, or `none`
when `c` does not occur. -/
def splitOnceAt (sep : Char) : List Char → Option (List Char × List Char)
  | [] => none
  | c :: rest =>
    if c = sep then some ([], rest)
    else (splitOnceAt sep rest).map (fun p => (c :: p.1, p.2))

/-- Value of a hexadecimal digit character, if it is one. -/
def hexVal (c : Char) : Option Nat :=
  if '0' ≤ c ∧ c ≤ '9' then some (c.toNat - 48)
  else if 'a' ≤ c ∧ c ≤ 'f' then some (c.toNat - 87)
  else if 'A' ≤ c ∧ c ≤ 'F' then some (c.toNat - 55)
  else none

/-- UTF-8 encoding of one unicode scalar value, as byte values. -/
def utf8Bytes (c : Char) : List Nat :=
  let n := c.toNat
  if n < 128 then [n]
  else if n < 2048 then [192 + n / 64, 128 + n % 64]
  else if n < 65536 then [224 + n / 4096, 128 + (n / 64) % 64, 128 + n % 64]
  else [240 + n / 262144, 128 + (n / 4096) % 64, 128 + (n / 64) % 64, 128 + n % 64]

/-- Is `b` a UTF-8 continuation byte (`0x80`–`0xBF`)? -/
def contByte (b : Nat) : Bool := 128 ≤ b && b < 192

/-- Worker for `decodeUtf8Replace`, structurally recursive on a fuel
argument that always dominates the length of the byte list. -/
def decodeUtf8ReplaceF : Nat → List Nat → List Char
  | _, [] => []
  | 0, _ :: _ => []
  | fuel + 1, b :: rest =>
    if b < 128 then Char.ofNat b :: decodeUtf8ReplaceF fuel rest
    else if 194 ≤ b && b ≤ 223 then
      match rest with
      | [] => [Char.ofNat 65533]
      | b2 :: r2 =>
        if contByte b2 then
          Char.ofNat ((b - 192) * 64 + (b2 - 128)) :: decodeUtf8ReplaceF fuel r2
        else Char.ofNat 65533 :: decodeUtf8ReplaceF fuel rest
    else if 224 ≤ b && b ≤ 239 then
      match rest with
      | [] => [Char.ofNat 65533]
      | b2 :: r2 =>
        if (if b = 224 then 160 ≤ b2 && b2 ≤ 191
            else if b = 237 then 128 ≤ b2 && b2 ≤ 159
            else contByte b2) then
          match r2 with
          | [] => [Char.ofNat 65533]
          | b3 :: r3 =>
            if contByte b3 then
              Char.ofNat ((b - 224) * 4096 + (b2 - 128) * 64 + (b3 - 128)) ::
                decodeUtf8ReplaceF fuel r3
            else Char.ofNat 65533 :: decodeUtf8ReplaceF fuel r2
        else Char.ofNat 65533 :: decodeUtf8ReplaceF fuel rest
    else if 240 ≤ b && b ≤ 244 then
      match rest with
      | [] => [Char.ofNat 65533]
      | b2 :: r2 =>
        if (if b = 240 then 144 ≤ b2 && b2 ≤ 191
            else if b = 244 then 128 ≤ b2 && b2 ≤ 143
            else contByte b2) then
          match r2 with
          | [] => [Char.ofNat 65533]
          | b3 :: r3 =>
            if contByte b3 then
              match r3 with
              | [] => [Char.ofNat 65533]
              | b4 :: r4 =>
                if contByte b4 then
                  Char.ofNat ((b - 240) * 262144 + (b2 - 128) * 4096 +
                      (b3 - 128) * 64 + (b4 - 128)) :: decodeUtf8ReplaceF fuel r4
                else Char.ofNat 65533 :: decodeUtf8ReplaceF fuel r3
            else Char.ofNat 65533 :: decodeUtf8ReplaceF fuel r2
        else Char.ofNat 65533 :: decodeUtf8ReplaceF fuel rest
    else Char.ofNat 65533 :: decodeUtf8ReplaceF fuel rest

/-- Decode a byte sequence as UTF-8 the way Python's `errors="replace"`
handler does: each maximal invalid subpart becomes one U+FFFD. -/
def decodeUtf8Replace (l : List Nat) : List Char :=
  decodeUtf8ReplaceF l.length l

/-- Percent-decoding pass of `urllib.parse.unquote`: every `%XX` with two
hexadecimal digits becomes the byte `0xXX`; any other `%` stays literal;
all other characters contribute their UTF-8 bytes. -/
def pctBytes : List Char → List Nat
  | [] => []
  | '%' :: a :: b :: r2 =>
    match hexVal a, hexVal b with
    | some ha, some hb => (16 * ha + hb) :: pctBytes r2
    | _, _ => utf8Bytes '%' ++ pctBytes (a :: b :: r2)
  | '%' :: rest => utf8Bytes '%' ++ pctBytes rest
  | c :: rest => utf8Bytes c ++ pctBytes rest

/-- `urllib.parse.unquote(s)` with the default UTF-8 `errors="replace"`
decoding.  Like CPython, a string without `%` is returned unchanged. -/
def pyUnquote (s : String) : String :=
  if s.data.contains '%' then String.mk (decodeUtf8Replace (pctBytes s.data))
  else s

/-- The `value.replace('+', ' ')` step of `urllib.parse.parse_qsl`. -/
def pyReplacePlus (s : String) : String :=
  String.mk (s.data.map fun c => if c = '+' then ' ' else c)

/-- `'+'` to space, then percent-decode — what `parse_qsl` applies to each
field name and value. -/
def pyUnquotePlus (s : String) : String :=
  pyUnquote (pyReplacePlus s)

/-! ## `urllib.parse.parse_qs` (external collaborator of `video_id.py`) -/

/-- One field of a query string, split at the first `'='`:
`none` when there is no `'='` in the field. -/
def fieldNV (f : String) : Option (String × String) :=
  (splitOnceAt '=' f.data).map (fun p => (String.mk p.1, String.mk p.2))

/-- The `'&'`-separated fields of a query string (`qs.split('&')`, with
CPython's guard that an empty query yields no fields). -/
def qsFields (qs : String) : List String :=
  if qs = "" then [] else (listSplitOn ['&'] qs.data).map String.mk

/-- `urllib.parse.parse_qsl(qs)` with the library defaults
(`keep_blank_values=False`, `strict_parsing=False`, `separator='&'`):
fields without `'='` and fields whose raw value is blank are dropped;
names and values have `'+'` replaced by space and are percent-decoded. -/
def pyParseQsl (qs : String) : List (String × String) :=
  (qsFields qs).filterMap (fun f =>
    match fieldNV f with
    | none => none
    | some (n, v) =>
      if v = "" then none else some (pyUnquotePlus n, pyUnquotePlus v))

/-- Append a parsed field into the grouped dictionary, preserving the
order of first occurrence of each name — exactly how `parse_qs` builds
its result from `parse_qsl`. -/
def groupInsert (k v : String) : List (String × List String) → List (String × List String)
  | [] => [(k, [v])]
  | (k', vs) :: rest =>
    if k' = k then (k', vs ++ [v]) :: rest else (k', vs) :: groupInsert k v rest

/-- `urllib.parse.parse_qs(qs)`: the fields of `parse_qsl`, grouped by
name into lists of values. -/
def pyParseQs (qs : String) : List (String × List String) :=
  (pyParseQsl qs).foldl (fun acc kv => groupInsert kv.1 kv.2 acc) []

/-- Dictionary lookup on the grouped result (`"v" in d` / `d["v"]`). -/
def pyQsLookup (d : List (String × List String)) (k : String) : Option (List String) :=
  (d.find? (fun p => p.1 == k)).map (·.2)

/-! ## `video_id.py` -/

/-- `ALLOWED_SCHEMES` from `video_id.py`. -/
def ALLOWED_SCHEMES : List String := ["http", "https"]

/-- `ALLOWED_NETLOCS` from `video_id.py`. -/
def ALLOWED_NETLOCS : List String :=
  ["youtu.be", "m.youtube.com", "youtube.com", "www.youtube.com",
   "www.youtube-nocookie.com", "vid.plus"]

/-- The errors raised by `parse_video_id`, one constructor per raise site
(the classes live in the package's `errors` module).  The source attaches
the offending scheme / netloc / candidate id to the error; the
`NoVideoIDFoundError` carries the raw URL string in the source, which the
component-level embedding does not keep. -/
inductive VideoIDFailure where
  | unsupportedURLScheme (scheme : String)
  | unsupportedURLNetloc (netloc : String)
  | noVideoIDFound
  | videoIDError (videoId : String)
deriving DecidableEq

/-- The four components of `urllib.parse.urlparse(url)` that
`parse_video_id` reads.  `urlparse` itself is standard-library URL
decomposition and is treated as an external collaborator: the embedding
starts from its output. -/
structure ParseResult where
  scheme : String
  netloc : String
  path : String
  query : String
deriving DecidableEq

/-- The final length check shared by both branches of `parse_video_id`
(`if len(video_id) != 11: raise VideoIDError(video_id)`). -/
def finishVideoId (videoId : String) : Except VideoIDFailure String :=
  if videoId.length ≠ 11 then .error (.videoIDError videoId) else .ok videoId

/-- `path.lstrip("/").split("/")[-1]` from the non-`watch` branch. -/
def pyLastSegment (p : String) : String :=
  String.mk (((listSplitOn ['/'] (pyLstripSlash p).data).getLast?).getD [])

/-- `parse_video_id` from `video_id.py`, over the `urlparse` components.
In the `watch` branch the source reads `parse_qs(query)["v"][0]`; the
grouped lists built by `parse_qs` are never empty, so the `headD ""`
default is unreachable. -/
def parse_video_id (u : ParseResult) : Except VideoIDFailure String :=
  if u.scheme ∈ ALLOWED_SCHEMES then
    if u.netloc ∈ ALLOWED_NETLOCS then
      if pyEndswith u.path "/watch" then
        match pyQsLookup (pyParseQs u.query) "v" with
        | some ids => finishVideoId (ids.headD "")
        | none => .error .noVideoIDFound
      else finishVideoId (pyLastSegment u.path)
    else .error (.unsupportedURLNetloc u.netloc)
  else .error (.unsupportedURLScheme u.scheme)

/-- The candidate identifier `parse_video_id` submits to the length check,
when it reaches one: the first `v` value in the `watch` branch, the final
path segment otherwise. -/
def candidateOf (u : ParseResult) : Option String :=
  if pyEndswith u.path "/watch" then
    (pyQsLookup (pyParseQs u.query) "v").map (·.headD "")
  else some (pyLastSegment u.path)

/-! ## `html.unescape` and `float` (external collaborators of `transcript.py`) -/

/-- `html.unescape`, restricted to the named character references the
spec exercises (`&amp;` `&lt;` `&gt;` `&quot;` `&apos;`); other ampersands
stay literal.  (CPython additionally knows the full HTML5 named-reference
table and numeric references; the caption claims only use this subset.) -/
def unescapeListF : Nat → List Char → List Char
  | _, [] => []
  | 0, l => l
  | fuel + 1, '&' :: rest =>
    if leadsWith ['a', 'm', 'p', ';'] rest then
      '&' :: unescapeListF fuel (rest.drop 4)
    else if leadsWith ['l', 't', ';'] rest then
      '<' :: unescapeListF fuel (rest.drop 3)
    else if leadsWith ['g', 't', ';'] rest then
      '>' :: unescapeListF fuel (rest.drop 3)
    else if leadsWith ['q', 'u', 'o', 't', ';'] rest then
      '"' :: unescapeListF fuel (rest.drop 5)
    else if leadsWith ['a', 'p', 'o', 's', ';'] rest then
      Char.ofNat 39 :: unescapeListF fuel (rest.drop 5)
    else '&' :: unescapeListF fuel rest
  | fuel + 1, c :: rest => c :: unescapeListF fuel rest

/-- The scanner itself, with the canonical fuel (the fuel only ever
pads the structural recursion and is always sufficient). -/
def unescapeList (l : List Char) : List Char :=
  unescapeListF l.length l

/-- `html.unescape` on strings. -/
def pyUnescape (s : String) : String :=
  String.mk (unescapeList s.data)

/-- Numeric value of a list of decimal digit characters. -/
def digitsVal (l : List Char) : Nat :=
  l.foldl (fun acc c => 10 * acc + (c.toNat - 48)) 0

/-- Python `float(s)` on finite decimal literals, with the value kept as
an exact rational: optional surrounding whitespace, optional sign, digits
with an optional fractional part (at least one digit overall), optional
decimal exponent.  Returns `none` where `float` raises `ValueError`.
(Out of scope: `inf` / `nan` spellings, `_` digit separators, non-ASCII
digits — none appear in caption documents.) -/
def pyFloat (s : String) : Option ℚ :=
  let l0 := (pyStrip s).data
  let signAndRest : ℚ × List Char :=
    match l0 with
    | '+' :: r => (1, r)
    | '-' :: r => (-1, r)
    | _ => (1, l0)
  let sign := signAndRest.1
  let ipSplit := signAndRest.2.span (·.isDigit)
  let fpSplit : List Char × List Char :=
    match ipSplit.2 with
    | '.' :: r => r.span (·.isDigit)
    | _ => ([], ipSplit.2)
  if ipSplit.1.isEmpty && fpSplit.1.isEmpty then none
  else
    let mant : ℚ :=
      sign * ((digitsVal ipSplit.1 : ℚ) +
        (digitsVal fpSplit.1 : ℚ) / ((10 ^ fpSplit.1.length : Nat) : ℚ))
    match fpSplit.2 with
    | [] => some mant
    | e :: r =>
      if e = 'e' ∨ e = 'E' then
        let negExp : Bool × List Char :=
          match r with
          | '+' :: r2 => (false, r2)
          | '-' :: r2 => (true, r2)
          | _ => (false, r)
        let edSplit := negExp.2.span (·.isDigit)
        if edSplit.1.isEmpty || !edSplit.2.isEmpty then none
        else if negExp.1 then
          some (mant / ((10 ^ digitsVal edSplit.1 : Nat) : ℚ))
        else some (mant * ((10 ^ digitsVal edSplit.1 : Nat) : ℚ))
      else none

/-! ## `transcript.py`: data model and caption-track selection -/

/-- Modelled from the spec: `CaptionTrack` from the package's `caption`
module (not under `src/`) — one advertised caption track,
`{ base_url: optional string, language_code: string }`. -/
structure CaptionTrack where
  base_url : Option String
  language_code : String
deriving DecidableEq

/-- Modelled from the spec: the catalog `Captions` from the package's
`caption` module (not under `src/`) — the ordered caption-track list. -/
structure Captions where
  caption_tracks : List CaptionTrack
deriving DecidableEq

/-- The errors `transcript.py` can raise, one constructor per raise site.
`xmlParseError` is `xml.etree.ElementTree.ParseError` (the spec's
`MalformedTranscript`); `keyErrorStart` is the `KeyError` from
`attrib["start"]`; `valueErrorFloat` is the `ValueError` from `float`;
`jsonDecodeError` is `json.JSONDecodeError`; `attributeTypeError` covers
the `AttributeError` / `TypeError` a non-dict value would raise during
the caption navigation; `validationError` is pydantic's. -/
inductive TranscriptFailure where
  | initialPlayerResponseNotFound
  | captionsNotFound
  | jsonDecodeError (msg : String)
  | attributeTypeError
  | validationError
  | xmlParseError
  | keyErrorStart
  | valueErrorFloat
deriving DecidableEq

/-- The `language_codes` argument of `get_caption_track`:
`str | Iterable[str]`. -/
inductive LanguageCodes where
  | str (code : String)
  | list (codes : List String)
deriving DecidableEq

/-- The inner loop of `get_caption_track`: first track in given order
whose `language_code` equals `code`. -/
def scanTracks (code : String) : List CaptionTrack → Option CaptionTrack
  | [] => none
  | t :: ts => if t.language_code == code then some t else scanTracks code ts

/-- The outer loop of `get_caption_track`: try each preferred language in
order against the full track list. -/
def prefLoop (tracks : List CaptionTrack) : List String → Option CaptionTrack
  | [] => none
  | code :: rest =>
    match scanTracks code tracks with
    | some t => some t
    | none => prefLoop tracks rest

/-- `get_caption_track` from `transcript.py`: error on an empty list; a
single track is returned unconditionally; a bare string is wrapped into a
one-element list; otherwise the preference loops run, falling back to the
first track. -/
def get_caption_track (caption_tracks : List CaptionTrack)
    (language_codes : LanguageCodes) : Except TranscriptFailure CaptionTrack :=
  match caption_tracks with
  | [] => .error .captionsNotFound
  | t :: ts =>
    if ts.isEmpty then .ok t
    else
      let codes :=
        match language_codes with
        | .str s => [s]
        | .list l => l
      match prefLoop (t :: ts) codes with
      | some tr => .ok tr
      | none => .ok t

/-- The selection rule in the spec's words (§4.3): fail on an empty list;
return a singleton unconditionally; otherwise the first preferred
language, in order, that matches some track exactly wins, scanning tracks
in their given order; no match returns the first track. -/
def select_spec (tracks : List CaptionTrack) (prefs : List String) :
    Except TranscriptFailure CaptionTrack :=
  match tracks with
  | [] => .error .captionsNotFound
  | [t] => .ok t
  | t :: _ =>
    match prefs.findSome? (fun code =>
        tracks.find? (fun tr => tr.language_code == code)) with
    | some tr => .ok tr
    | none => .ok t

/-! ## `transcript.py`: transcript XML parsing -/

/-- One immediate child element of the caption XML root, as
`xml.etree.ElementTree` presents it: its text node (`None` when the
element has no text) and its attribute dictionary. -/
structure XmlElement where
  text : Option String
  attrib : List (String × String)
deriving DecidableEq

/-- Attribute dictionary lookup (`elem.attrib[k]` / `.get(k)`). -/
def attribGet (attrib : List (String × String)) (key : String) : Option String :=
  (attrib.find? (fun p => p.1 == key)).map (·.2)

/-- One timed transcript snippet (`TranscriptSnippet` in `transcript.py`);
the float fields are carried as exact rationals. -/
structure TranscriptSnippet where
  text : String
  start : ℚ
  duration : ℚ
deriving DecidableEq

/-- One iteration of the `parse_transcript` loop body: skip an element
with no text node; otherwise build the snippet from the stripped,
entity-decoded text, the required `start` attribute and the optional
`dur` attribute (defaulting to `"0.0"`), failing where the source would
raise `KeyError` or `ValueError`. -/
def processElement (e : XmlElement) :
    Except TranscriptFailure (Option TranscriptSnippet) :=
  match e.text with
  | none => .ok none
  | some t =>
    match attribGet e.attrib "start" with
    | none => .error .keyErrorStart
    | some sAttr =>
      match pyFloat sAttr with
      | none => .error .valueErrorFloat
      | some st =>
        match pyFloat ((attribGet e.attrib "dur").getD "0.0") with
        | none => .error .valueErrorFloat
        | some du =>
          .ok (some { text := pyUnescape (pyStrip t), start := st, duration := du })

/-- The `parse_transcript` loop over the root's children; an exception at
any element aborts the whole call with no partial result. -/
def parseElements : List XmlElement → Except TranscriptFailure (List TranscriptSnippet)
  | [] => .ok []
  | e :: rest =>
    match processElement e with
    | .error err => .error err
    | .ok none => parseElements rest
    | .ok (some s) =>
      match parseElements rest with
      | .error err => .error err
      | .ok l => .ok (s :: l)

/-- `parse_transcript` from `transcript.py`.  `ElementTree.fromstring` is
an external standard-library XML parser; its outcome is the input here:
`none` models a raise of `ParseError` on unparseable input, `some els`
a successfully parsed document with immediate child elements `els` in
document order. -/
def parse_transcript (doc : Option (List XmlElement)) :
    Except TranscriptFailure (List TranscriptSnippet) :=
  match doc with
  | none => .error .xmlParseError
  | some els => parseElements els

/-- The snippet an element contributes, in the claim's words: nothing
without a text node; otherwise the trimmed, entity-decoded text with the
`start` attribute's float value and the `dur` attribute's float value
defaulting to `0.0`. -/
def snippetOfEl (e : XmlElement) : Option TranscriptSnippet :=
  match e.text, attribGet e.attrib "start" with
  | some t, some sAttr =>
    match pyFloat sAttr, pyFloat ((attribGet e.attrib "dur").getD "0.0") with
    | some st, some du =>
      some { text := pyUnescape (pyStrip t), start := st, duration := du }
    | _, _ => none
  | _, _ => none

/-- A well-formed element in the sense of the claims: if it carries text,
its `start` attribute is present and parses as a float, and its `dur`
attribute (or the default `"0.0"`) parses as a float. -/
def elementWF (e : XmlElement) : Prop :=
  ∀ t, e.text = some t →
    (∃ sAttr, attribGet e.attrib "start" = some sAttr ∧ (pyFloat sAttr).isSome) ∧
      (pyFloat ((attribGet e.attrib "dur").getD "0.0")).isSome

/-! ## `transcript.py`: caption catalog extraction (`parse_captions`) -/

/-- JSON values, as `json.loads` produces them (numbers as exact
rationals; object keys in document order, assumed unique as `json.loads`
keeps only the last duplicate). -/
inductive Json where
  | null
  | bool (b : Bool)
  | num (q : ℚ)
  | str (s : String)
  | arr (elems : List Json)
  | obj (fields : List (String × Json))

/-- Key lookup in a decoded JSON object (`d[k]` / `d.get(k)`). -/
def jsonGet (fields : List (String × Json)) (key : String) : Option Json :=
  (fields.find? (fun p => p.1 == key)).map (·.2)

/-- Python truthiness of a decoded JSON value (`not x`). -/
def pyFalsy : Json → Bool
  | .null => true
  | .bool b => !b
  | .num q => q == 0
  | .str s => s == ""
  | .arr elems => elems.isEmpty
  | .obj fields => fields.isEmpty

/-- Is `.str k` an element of a decoded JSON array, under Python `==`
(only string elements can compare equal to a string)? -/
def jsonArrHasStr (k : String) : List Json → Bool
  | [] => false
  | .str s :: rest => s == k || jsonArrHasStr k rest
  | _ :: rest => jsonArrHasStr k rest

/-- Python `k in x` on a decoded JSON value: key membership for a dict,
substring for a string, element membership for a list; `TypeError`
otherwise. -/
def pyHasMember (k : String) : Json → Except Unit Bool
  | .obj fields => .ok (jsonGet fields k).isSome
  | .str s => .ok (decide (k.data <:+: s.data))
  | .arr elems => .ok (jsonArrHasStr k elems)
  | _ => .error ()

/-- The marker literal preceding the embedded configuration object. -/
def PLAYER_RESPONSE_MARKER : String := "var ytInitialPlayerResponse ="

/-- The script-closing delimiter. -/
def SCRIPT_CLOSE : String := "</script>"

/-- The secondary trailing delimiter. -/
def HEAD_MARKER : String := ";var head ="

/-- The substring-extraction phase of `parse_captions`: split the page at
the marker (error if it is absent), take the piece after the first
occurrence, cut it at `"</script>"` and at `";var head ="`, and strip
stray `';'`.  This is the argument handed to `json.loads`. -/
def extractPlayerResponseData (html : String) : Except TranscriptFailure String :=
  match listSplitOn PLAYER_RESPONSE_MARKER.data html.data with
  | _ :: second :: _ =>
    let cut1 := ((listSplitOn SCRIPT_CLOSE.data second).headD [])
    let cut2 := ((listSplitOn HEAD_MARKER.data cut1).headD [])
    .ok (pyStripSemi (String.mk cut2))
  | _ => .error .initialPlayerResponseNotFound

/-- Modelled from the spec: one element of the `captionTracks` array
mapped into a `CaptionTrack` by pydantic validation (the `Captions` model
lives in the package's `caption` module, not under `src/`): the
`languageCode` string is required, `baseUrl` is optional, unknown fields
are tolerated. -/
def trackOfJson : Json → Except TranscriptFailure CaptionTrack
  | .obj fields =>
    match jsonGet fields "languageCode" with
    | some (.str lc) =>
      match jsonGet fields "baseUrl" with
      | some (.str u) => .ok { base_url := some u, language_code := lc }
      | some _ => .error .validationError
      | none => .ok { base_url := none, language_code := lc }
    | _ => .error .validationError
  | _ => .error .validationError

/-- Map a `captionTracks` array into tracks, stopping at the first
validation failure. -/
def tracksOfJsonList : List Json → Except TranscriptFailure (List CaptionTrack)
  | [] => .ok []
  | x :: xs =>
    match trackOfJson x with
    | .error e => .error e
    | .ok t =>
      match tracksOfJsonList xs with
      | .error e => .error e
      | .ok ts => .ok (t :: ts)

/-- Modelled from the spec: `Captions.model_validate(captions_json)` —
map each element of the `captionTracks` array into a `CaptionTrack`,
preserving source order. -/
def modelValidateCaptions (j : Json) : Except TranscriptFailure Captions :=
  match j with
  | .obj fields =>
    match jsonGet fields "captionTracks" with
    | some (.arr elems) =>
      match tracksOfJsonList elems with
      | .error e => .error e
      | .ok tracks => .ok { caption_tracks := tracks }
    | _ => .error .validationError
  | _ => .error .validationError

/-- The `if not captions_json or "captionTracks" not in captions_json`
test of `parse_captions`, followed by the validation of the renderer
section it guards. -/
def rendererCheck (renderer : Json) : Except TranscriptFailure Captions :=
  if pyFalsy renderer then .error .captionsNotFound
  else
    match pyHasMember "captionTracks" renderer with
    | .error _ => .error .attributeTypeError
    | .ok false => .error .captionsNotFound
    | .ok true => modelValidateCaptions renderer

/-- `.get("playerCaptionsTracklistRenderer")` on the value of the
`captions` key: `.get` on a non-dict raises `AttributeError`, and an
absent key gives `None`, which the truthiness test turns into
`CaptionsNotFoundError`. -/
def captionsNavigate (captionsVal : Json) : Except TranscriptFailure Captions :=
  match captionsVal with
  | .obj cfields =>
    match jsonGet cfields "playerCaptionsTracklistRenderer" with
    | none => .error .captionsNotFound
    | some renderer => rendererCheck renderer
  | _ => .error .attributeTypeError

/-- The navigation phase of `parse_captions`, on the decoded response:
`response_json.get("captions", {}).get("playerCaptionsTracklistRenderer")`
followed by `if not captions_json or "captionTracks" not in captions_json`.
A decoded response that is not a dict, or a truthy `captions` value that
is not a dict, raises `AttributeError` in the source (`.get` on a
non-dict), modelled as `attributeTypeError`. -/
def captionsOfJson (j : Json) : Except TranscriptFailure Captions :=
  match j with
  | .obj fields => captionsNavigate ((jsonGet fields "captions").getD (.obj []))
  | _ => .error .attributeTypeError

/-- `parse_captions` from `transcript.py`.  `json.loads` is an external
standard-library decoder, passed in as `loads`; a `.error msg` result
models a raised `json.JSONDecodeError`. -/
def parse_captions (loads : String → Except String Json) (html : String) :
    Except TranscriptFailure Captions :=
  match extractPlayerResponseData html with
  | .error e => .error e
  | .ok data =>
    match loads data with
    | .error msg => .error (.jsonDecodeError msg)
    | .ok j => captionsOfJson j

/-! ## Supporting lemmas: caption-track selection -/

/-- The inner loop is `List.find?` on the language code. -/
theorem scanTracks_eq_find (code : String) (tracks : List CaptionTrack) :
    scanTracks code tracks = tracks.find? (fun tr => tr.language_code == code) := by
  induction tracks with
  | nil => rfl
  | cons t ts ih =>
    by_cases h : t.language_code == code <;>
      simp [scanTracks, List.find?, h, ih]

/-- The outer loop is `List.findSome?` of the inner loop. -/
theorem prefLoop_eq_findSome (tracks : List CaptionTrack) (prefs : List String) :
    prefLoop tracks prefs =
      prefs.findSome? (fun code =>
        tracks.find? (fun tr => tr.language_code == code)) := by
  induction prefs with
  | nil => rfl
  | cons code rest ih =>
    simp only [prefLoop, List.findSome?, scanTracks_eq_find, ih]
    cases tracks.find? (fun tr => tr.language_code == code) <;> rfl

/-- C1: `get_caption_track` implements the full selection rule of the
spec: it fails (with `CaptionsNotFoundError`) iff the track list is
empty; a singleton list is returned unconditionally; otherwise the
preference list is scanned in order against the tracks in their given
order, exact string match, falling back to the first track (also when
the preference list is empty). -/
theorem get_caption_track_selection_rule (tracks : List CaptionTrack)
    (prefs : List String) :
    get_caption_track tracks (.list prefs) = select_spec tracks prefs ∧
      ((∃ e, get_caption_track tracks (.list prefs) = .error e) ↔ tracks = []) := by
  constructor
  · cases tracks with
    | nil => rfl
    | cons t ts =>
      cases ts with
      | nil => rfl
      | cons t2 ts2 =>
        have hgc : get_caption_track (t :: t2 :: ts2) (.list prefs) =
            match prefLoop (t :: t2 :: ts2) prefs with
            | some tr => Except.ok tr
            | none => Except.ok t := rfl
        rw [hgc, prefLoop_eq_findSome]
        cases h : List.findSome? (fun code =>
            List.find? (fun tr => tr.language_code == code) (t :: t2 :: ts2))
            prefs <;> simp [select_spec, h]
  · cases tracks with
    | nil => simp [get_caption_track]
    | cons t ts =>
      simp only [List.cons_ne_nil, iff_false]
      rintro ⟨e, he⟩
      cases ts with
      | nil => simp [get_caption_track] at he
      | cons t2 ts2 =>
        have hgc : get_caption_track (t :: t2 :: ts2) (.list prefs) =
            match prefLoop (t :: t2 :: ts2) prefs with
            | some tr => Except.ok tr
            | none => Except.ok t := rfl
        rw [hgc] at he
        rcases h : prefLoop (t :: t2 :: ts2) prefs with _ | tr <;>
          simp [h] at he

/-- C10: a bare string language code behaves exactly like the
one-element preference list containing it. -/
theorem get_caption_track_str_singleton (tracks : List CaptionTrack) (s : String) :
    get_caption_track tracks (.str s) = get_caption_track tracks (.list [s]) := by
  cases tracks <;> rfl

/-! ## Supporting lemmas: query-string dictionary -/

/-- `groupInsert` keeps a key absent when neither the dictionary nor the
inserted field carries it. -/
theorem groupInsert_preserves_no_key (k k' v : String)
    (acc : List (String × List String)) (hk : k' ≠ k)
    (hacc : ∀ g ∈ acc, g.1 ≠ k) :
    ∀ g ∈ groupInsert k' v acc, g.1 ≠ k := by
  induction acc with
  | nil =>
    intro g hg
    simp only [groupInsert, List.mem_singleton] at hg
    simp [hg, hk]
  | cons a rest ih =>
    intro g hg
    simp only [groupInsert] at hg
    by_cases ha : a.1 = k'
    · rw [if_pos ha] at hg
      rcases List.mem_cons.mp hg with h | h
      · subst h; simpa [ha] using hk
      · exact hacc _ (List.mem_cons_of_mem _ h)
    · rw [if_neg ha] at hg
      rcases List.mem_cons.mp hg with h | h
      · subst h; exact hacc _ (List.mem_cons_self ..)
      · exact ih (fun g hg => hacc g (List.mem_cons_of_mem _ hg)) g h

/-- Folding fields that never carry key `k` leaves `k` absent. -/
theorem foldl_groupInsert_no_key (k : String) :
    ∀ (l : List (String × String)) (acc : List (String × List String)),
      (∀ p ∈ l, p.1 ≠ k) → (∀ g ∈ acc, g.1 ≠ k) →
      ∀ g ∈ l.foldl (fun acc kv => groupInsert kv.1 kv.2 acc) acc, g.1 ≠ k := by
  intro l
  induction l with
  | nil => intro acc _ hacc; simpa using hacc
  | cons p rest ih =>
    intro acc hl hacc
    simp only [List.foldl_cons]
    exact ih _ (fun q hq => hl q (List.mem_cons_of_mem _ hq))
      (groupInsert_preserves_no_key k p.1 p.2 acc
        (hl p (List.mem_cons_self ..)) hacc)

/-- If every parsed field avoids key `k`, the grouped dictionary lookup
misses. -/
theorem pyQsLookup_eq_none (qs k : String)
    (h : ∀ p ∈ pyParseQsl qs, p.1 ≠ k) :
    pyQsLookup (pyParseQs qs) k = none := by
  have hall : ∀ g ∈ pyParseQs qs, g.1 ≠ k :=
    foldl_groupInsert_no_key k (pyParseQsl qs) [] h (by simp)
  unfold pyQsLookup
  rw [List.find?_eq_none.mpr]
  · rfl
  · intro g hg
    simpa using hall g hg

/-- Fields whose raw value is blank never reach `parse_qsl`'s output. -/
theorem pyParseQsl_no_blank_key (qs k : String)
    (hblank : ∀ f ∈ qsFields qs, ∀ n v, fieldNV f = some (n, v) →
      pyUnquotePlus n = k → v = "") :
    ∀ p ∈ pyParseQsl qs, p.1 ≠ k := by
  intro p hp
  unfold pyParseQsl at hp
  rcases List.mem_filterMap.mp hp with ⟨f, hf, hpf⟩
  rcases hnv : fieldNV f with _ | ⟨n, v⟩ <;> simp only [hnv] at hpf
  · exact absurd hpf (by simp)
  by_cases hv : v = ""
  · rw [if_pos hv] at hpf; exact absurd hpf (by simp)
  · rw [if_neg hv] at hpf
    have hp1 : p.1 = pyUnquotePlus n := by
      have h := Option.some.inj hpf
      rw [← h]
    intro hk
    exact hv (hblank f hf n v hnv (by rw [← hp1, hk]))

/-! ## C2, C9, C3: `parse_video_id` -/

/-- C2: with an allowed scheme, allowed host and a path ending in the
`watch` segment, the first value of the `v` query parameter is returned
whenever it has exactly 11 characters — covering every allow-listed
domain variant, extra query parameters, and multi-valued `v`. -/
theorem parse_video_id_watch_ok (u : ParseResult) (vid : String)
    (rest : List String) (hs : u.scheme ∈ ALLOWED_SCHEMES)
    (hn : u.netloc ∈ ALLOWED_NETLOCS)
    (hw : pyEndswith u.path "/watch" = true)
    (hv : pyQsLookup (pyParseQs u.query) "v" = some (vid :: rest))
    (hlen : vid.length = 11) :
    parse_video_id u = .ok vid := by
  simp [parse_video_id, hs, hn, hw, hv, finishVideoId, hlen]

/-- C2 witness. -/
theorem parse_video_id_watch_ok_witness :
    parse_video_id
      ⟨"https", "www.youtube.com", "/watch", "v=dQw4w9WgXcQ&feature=x"⟩ =
      .ok "dQw4w9WgXcQ" :=
  parse_video_id_watch_ok _ "dQw4w9WgXcQ" [] (by decide) (by decide)
    (by decide) (by decide) (by decide)

/-- C9: when the query carries the parameter `v` only with blank values
(such as `?v=`), `parse_qs` drops those fields, so `parse_video_id`
raises `NoVideoIDFoundError` exactly as if `v` were absent — it does not
submit the empty candidate to the length check. -/
theorem parse_video_id_blank_v (u : ParseResult)
    (hs : u.scheme ∈ ALLOWED_SCHEMES) (hn : u.netloc ∈ ALLOWED_NETLOCS)
    (hw : pyEndswith u.path "/watch" = true)
    (hpresent : ∃ f ∈ qsFields u.query, ∃ n v,
      fieldNV f = some (n, v) ∧ pyUnquotePlus n = "v")
    (hblank : ∀ f ∈ qsFields u.query, ∀ n v, fieldNV f = some (n, v) →
      pyUnquotePlus n = "v" → v = "") :
    parse_video_id u = .error .noVideoIDFound ∧
      ∀ c, parse_video_id u ≠ .error (.videoIDError c) := by
  have hnone : pyQsLookup (pyParseQs u.query) "v" = none :=
    pyQsLookup_eq_none _ _ (pyParseQsl_no_blank_key _ _ hblank)
  have hmain : parse_video_id u = .error .noVideoIDFound := by
    simp [parse_video_id, hs, hn, hw, hnone]
  exact ⟨hmain, fun c hc => by rw [hmain] at hc; exact absurd hc (by simp)⟩

/-- C9 witness. -/
theorem parse_video_id_blank_v_witness :
    parse_video_id ⟨"https", "www.youtube.com", "/watch", "v="⟩ =
      .error .noVideoIDFound :=
  (parse_video_id_blank_v ⟨"https", "www.youtube.com", "/watch", "v="⟩
    (by decide) (by decide) (by decide)
    ⟨"v=", by decide, "v", "", by decide, by decide⟩
    (by
      intro f hf n v hnv _
      have hq : qsFields "v=" = ["v="] := rfl
      rw [hq] at hf
      have hf2 : f = "v=" := List.mem_singleton.mp hf
      subst hf2
      have h2 : (some (("v" : String), ("" : String))) = some (n, v) := hnv
      injection h2 with h3
      injection h3 with h4 h5
      exact h5.symm)).1

/-- C3: the error behaviour of `parse_video_id` — a disallowed scheme
always fails with `UnsupportedURLSchemeError`; an allowed scheme with a
disallowed host fails with `UnsupportedURLNetlocError`; an allowed
scheme and host with a `/watch` path and no usable `v` parameter fails
with `NoVideoIDFoundError`; a candidate of length other than 11 fails
with `VideoIDError`; the checks fire in that order, and every error the
function can produce is one of these four under exactly these
conditions. -/
theorem parse_video_id_error_taxonomy (u : ParseResult) :
    (u.scheme ∉ ALLOWED_SCHEMES →
      parse_video_id u = .error (.unsupportedURLScheme u.scheme)) ∧
    (u.scheme ∈ ALLOWED_SCHEMES → u.netloc ∉ ALLOWED_NETLOCS →
      parse_video_id u = .error (.unsupportedURLNetloc u.netloc)) ∧
    (u.scheme ∈ ALLOWED_SCHEMES → u.netloc ∈ ALLOWED_NETLOCS →
      pyEndswith u.path "/watch" = true →
      pyQsLookup (pyParseQs u.query) "v" = none →
      parse_video_id u = .error .noVideoIDFound) ∧
    (∀ c, u.scheme ∈ ALLOWED_SCHEMES → u.netloc ∈ ALLOWED_NETLOCS →
      candidateOf u = some c → c.length ≠ 11 →
      parse_video_id u = .error (.videoIDError c)) ∧
    (∀ e, parse_video_id u = .error e →
      (u.scheme ∉ ALLOWED_SCHEMES ∧ e = .unsupportedURLScheme u.scheme) ∨
      (u.scheme ∈ ALLOWED_SCHEMES ∧ u.netloc ∉ ALLOWED_NETLOCS ∧
        e = .unsupportedURLNetloc u.netloc) ∨
      (u.scheme ∈ ALLOWED_SCHEMES ∧ u.netloc ∈ ALLOWED_NETLOCS ∧
        pyEndswith u.path "/watch" = true ∧
        pyQsLookup (pyParseQs u.query) "v" = none ∧ e = .noVideoIDFound) ∨
      (∃ c, u.scheme ∈ ALLOWED_SCHEMES ∧ u.netloc ∈ ALLOWED_NETLOCS ∧
        candidateOf u = some c ∧ c.length ≠ 11 ∧ e = .videoIDError c)) := by
  refine ⟨?_, ?_, ?_, ?_, ?_⟩
  · intro h
    simp [parse_video_id, h]
  · intro hs hn
    simp [parse_video_id, hs, hn]
  · intro hs hn hw hv
    simp [parse_video_id, hs, hn, hw, hv]
  · intro c hs hn hc hlen
    unfold candidateOf at hc
    by_cases hw : pyEndswith u.path "/watch" = true
    · rw [if_pos hw] at hc
      rcases Option.map_eq_some'.mp hc with ⟨ids, hids, hh⟩
      simp only [parse_video_id, if_pos hs, if_pos hn, hw, if_pos rfl, hids,
        finishVideoId, hh]
      rw [if_pos hlen]
      simp
    · rw [if_neg hw] at hc
      have hc2 := Option.some.inj hc
      simp only [parse_video_id, if_pos hs, if_pos hn, hw, Bool.false_eq_true,
        if_false, finishVideoId, hc2]
      rw [if_pos hlen]
  · intro e he
    by_cases hs : u.scheme ∈ ALLOWED_SCHEMES
    · by_cases hn : u.netloc ∈ ALLOWED_NETLOCS
      · by_cases hw : pyEndswith u.path "/watch" = true
        · rcases hv : pyQsLookup (pyParseQs u.query) "v" with _ | ids
          · simp only [parse_video_id, if_pos hs, if_pos hn, hw, if_pos rfl,
              hv] at he
            exact Or.inr (Or.inr (Or.inl
              ⟨hs, hn, hw, rfl, (Except.error.inj he).symm⟩))
          · simp only [parse_video_id, if_pos hs, if_pos hn, hw, if_pos rfl,
              hv, finishVideoId] at he
            by_cases hlen : (ids.headD "").length ≠ 11
            · rw [if_pos hlen] at he
              refine Or.inr (Or.inr (Or.inr ⟨ids.headD "", hs, hn, ?_, hlen,
                (Except.error.inj he).symm⟩))
              simp [candidateOf, hw, hv]
            · rw [if_neg hlen] at he
              exact absurd he (by simp)
        · simp only [parse_video_id, if_pos hs, if_pos hn, hw,
            Bool.false_eq_true, if_false, finishVideoId] at he
          by_cases hlen : (pyLastSegment u.path).length ≠ 11
          · rw [if_pos hlen] at he
            refine Or.inr (Or.inr (Or.inr ⟨pyLastSegment u.path, hs, hn, ?_,
              hlen, (Except.error.inj he).symm⟩))
            simp [candidateOf, hw]
          · rw [if_neg hlen] at he
            exact absurd he (by simp)
      · simp only [parse_video_id, if_pos hs, if_neg hn] at he
        exact Or.inr (Or.inl ⟨hs, hn, (Except.error.inj he).symm⟩)
    · simp only [parse_video_id, if_neg hs] at he
      exact Or.inl ⟨hs, (Except.error.inj he).symm⟩

/-- C3 witness. -/
theorem parse_video_id_error_taxonomy_witness :
    parse_video_id ⟨"ftp", "www.youtube.com", "/watch", "v=dQw4w9WgXcQ"⟩ =
      .error (.unsupportedURLScheme "ftp") ∧
    parse_video_id ⟨"https", "vimeo.com", "/watch", "v=dQw4w9WgXcQ"⟩ =
      .error (.unsupportedURLNetloc "vimeo.com") ∧
    parse_video_id ⟨"https", "www.youtube.com", "/watch", ""⟩ =
      .error .noVideoIDFound ∧
    parse_video_id ⟨"https", "youtu.be", "/short", ""⟩ =
      .error (.videoIDError "short") :=
  ⟨(parse_video_id_error_taxonomy _).1 (by decide),
   (parse_video_id_error_taxonomy _).2.1 (by decide) (by decide),
   (parse_video_id_error_taxonomy _).2.2.1 (by decide) (by decide) (by decide)
     (by decide),
   (parse_video_id_error_taxonomy _).2.2.2.1 "short" (by decide) (by decide)
     (by decide) (by decide)⟩

/-! ## Supporting lemmas: path splitting -/

/-- A split result is never the empty list. -/
theorem listSplitOn_ne_nil (sep l : List Char) : listSplitOn sep l ≠ [] := by
  cases l with
  | nil => simp [listSplitOn, listSplitOnF]
  | cons c cs =>
    rw [listSplitOn_cons]
    split
    · simp
    · cases h : listSplitOn sep cs <;> simp

/-- Splitting at a character that does not occur returns the whole list. -/
theorem listSplitOn_single_not_mem (ch : Char) (l : List Char) (h : ch ∉ l) :
    listSplitOn [ch] l = [l] := by
  induction l with
  | nil => rfl
  | cons c cs ih =>
    rw [listSplitOn_cons]
    have hc : (ch == c) = false := by
      simp only [List.mem_cons, not_or] at h
      simp [h.1]
    rw [if_neg (by simp [leadsWith, hc])]
    rw [ih (by simp only [List.mem_cons, not_or] at h; exact h.2)]

/-- Splitting at a character that occurs yields at least two pieces. -/
theorem two_le_listSplitOn_single (ch : Char) (l : List Char) (h : ch ∈ l) :
    2 ≤ (listSplitOn [ch] l).length := by
  induction l with
  | nil => simp at h
  | cons c cs ih =>
    rw [listSplitOn_cons]
    by_cases hc : ch = c
    · rw [if_pos (by simp [leadsWith, hc])]
      have h1 : 1 ≤ (listSplitOn [ch] ((c :: cs).drop ([ch].length))).length :=
        List.length_pos.mpr (listSplitOn_ne_nil _ _)
      simp only [List.length_cons] at h1 ⊢
      omega
    · have hcs : ch ∈ cs := by
        rcases List.mem_cons.mp h with h1 | h1
        · exact absurd h1 hc
        · exact h1
      have h2 := ih hcs
      by_cases hcond : ([ch] ≠ [] ∧ leadsWith [ch] (c :: cs) = true)
      · rw [if_pos hcond]
        have h1 : 1 ≤ (listSplitOn [ch] ((c :: cs).drop ([ch].length))).length :=
          List.length_pos.mpr (listSplitOn_ne_nil _ _)
        simp only [List.length_cons] at h1 ⊢
        omega
      · rw [if_neg hcond]
        rcases h3 : listSplitOn [ch] cs with _ | ⟨r, rs⟩
        · exact absurd h3 (listSplitOn_ne_nil _ _)
        · rw [h3] at h2
          simpa using h2

/-- `getLast?` ignores a head in front of a non-empty list. -/
theorem getLast?_cons_ne_nil {α : Type} (a : α) (l : List α) (h : l ≠ []) :
    (a :: l).getLast? = l.getLast? := by
  cases l with
  | nil => exact absurd rfl h
  | cons b t => exact List.getLast?_cons_cons ..

/-- The last split piece after everything up to a final occurrence of the
separator is the last piece of the tail's split. -/
theorem getLast?_listSplitOn_append (ch : Char) (a b : List Char) :
    (listSplitOn [ch] (a ++ ch :: b)).getLast? =
      (listSplitOn [ch] b).getLast? := by
  induction a with
  | nil =>
    simp only [List.nil_append]
    rw [listSplitOn_cons, if_pos (by simp [leadsWith])]
    exact getLast?_cons_ne_nil _ _ (by simpa using listSplitOn_ne_nil [ch] b)
  | cons c a' ih =>
    simp only [List.cons_append]
    rw [listSplitOn_cons]
    by_cases hc : ch = c
    · rw [if_pos (by simp [leadsWith, hc])]
      have : (c :: (a' ++ ch :: b)).drop 1 = a' ++ ch :: b := rfl
      rw [show ((c :: (a' ++ ch :: b)).drop ([ch].length)) = a' ++ ch :: b
        from rfl]
      rw [getLast?_cons_ne_nil _ _ (listSplitOn_ne_nil _ _), ih]
    · rw [if_neg (fun hcond => hc (by simpa [leadsWith] using hcond.2))]
      have h2 : 2 ≤ (listSplitOn [ch] (a' ++ ch :: b)).length :=
        two_le_listSplitOn_single ch _ (by simp)
      rcases h3 : listSplitOn [ch] (a' ++ ch :: b) with _ | ⟨r, rs⟩
      · exact absurd h3 (listSplitOn_ne_nil _ _)
      · rw [h3] at h2 ih
        have hrs : rs ≠ [] := by
          intro hrs
          rw [hrs] at h2
          simp at h2
        rw [getLast?_cons_ne_nil _ _ hrs, ← getLast?_cons_ne_nil r rs hrs, ih]

/-- Leading separators do not change the last split piece. -/
theorem getLast?_listSplitOn_dropWhile (ch : Char) (l : List Char) :
    (listSplitOn [ch] (l.dropWhile (· == ch))).getLast? =
      (listSplitOn [ch] l).getLast? := by
  induction l with
  | nil => rfl
  | cons c cs ih =>
    by_cases hc : (c == ch) = true
    · have hd : (c :: cs).dropWhile (· == ch) = cs.dropWhile (· == ch) := by
        rw [List.dropWhile_cons, if_pos hc]
      rw [hd, ih]
      have hcc : ch = c := (eq_of_beq hc).symm
      rw [listSplitOn_cons, if_pos (by simp [leadsWith, hcc])]
      rw [show ((c :: cs).drop ([ch].length)) = cs from rfl]
      exact (getLast?_cons_ne_nil _ _ (listSplitOn_ne_nil _ _)).symm
    · have hd : (c :: cs).dropWhile (· == ch) = c :: cs := by
        rw [List.dropWhile_cons, if_neg hc]
      rw [hd]

/-- On a path of the form `pre ++ "/" ++ seg` with `seg` slash-free, the
source's `lstrip`-then-`split` computation returns `seg`. -/
theorem pyLastSegment_append (pre seg : String) (hseg : '/' ∉ seg.data) :
    pyLastSegment (pre ++ "/" ++ seg) = seg := by
  unfold pyLastSegment pyLstripSlash
  have hdata : (pre ++ "/" ++ seg).data = pre.data ++ '/' :: seg.data := by
    rw [String.data_append, String.data_append]
    simp
  rw [hdata, getLast?_listSplitOn_dropWhile, getLast?_listSplitOn_append,
    listSplitOn_single_not_mem _ _ hseg]
  rfl

/-- A path ending in a slash has an empty final split segment. -/
theorem pyLastSegment_trailing_slash (p : String)
    (h : pyEndswith p "/" = true) : pyLastSegment p = "" := by
  unfold pyEndswith at h
  rcases List.isSuffixOf_iff_suffix.mp h with ⟨q, hq⟩
  have hdata : p.data = q ++ '/' :: [] := by
    rw [← hq]
  unfold pyLastSegment pyLstripSlash
  rw [hdata, getLast?_listSplitOn_dropWhile, getLast?_listSplitOn_append]
  rfl

/-- C6 counterexample: an allow-listed short-link URL whose path is an
11-character segment followed by a trailing slash does not resolve to
that identifier; the code only strips leading slashes, so the final
split segment is empty and the call fails the length check. -/
theorem parse_video_id_trailing_slash_counterexample :
    parse_video_id ⟨"https", "youtu.be", "/dQw4w9WgXcQ/", ""⟩ =
      .error (.videoIDError "") ∧
    parse_video_id ⟨"https", "youtu.be", "/dQw4w9WgXcQ/", ""⟩ ≠
      .ok "dQw4w9WgXcQ" := by
  refine ⟨by rfl, ?_⟩
  intro h
  rw [show parse_video_id ⟨"https", "youtu.be", "/dQw4w9WgXcQ/", ""⟩ =
    .error (.videoIDError "") by rfl] at h
  exact absurd h (by simp)

/-- C6 amended: for an allowed scheme and host and a path not ending in
the `watch` segment, the candidate is the part of the path after its
last slash (only leading slashes are stripped): a slash-free final
segment of exactly 11 characters is returned, while a path with a
trailing slash yields the empty candidate and fails with
`VideoIDError`. -/
theorem parse_video_id_final_segment :
    (∀ scheme netloc pre seg query : String, scheme ∈ ALLOWED_SCHEMES →
      netloc ∈ ALLOWED_NETLOCS →
      pyEndswith (pre ++ "/" ++ seg) "/watch" = false → '/' ∉ seg.data →
      seg.length = 11 →
      parse_video_id ⟨scheme, netloc, pre ++ "/" ++ seg, query⟩ = .ok seg) ∧
    (∀ scheme netloc p query : String, scheme ∈ ALLOWED_SCHEMES →
      netloc ∈ ALLOWED_NETLOCS → pyEndswith p "/watch" = false →
      pyEndswith p "/" = true →
      parse_video_id ⟨scheme, netloc, p, query⟩ =
        .error (.videoIDError "")) := by
  constructor
  · intro scheme netloc pre seg query hs hn hw hseg hlen
    simp only [parse_video_id, if_pos hs, if_pos hn, hw, Bool.false_eq_true,
      if_false, finishVideoId, pyLastSegment_append pre seg hseg, hlen]
    simp
  · intro scheme netloc p query hs hn hw htrail
    simp only [parse_video_id, if_pos hs, if_pos hn, hw, Bool.false_eq_true,
      if_false, finishVideoId, pyLastSegment_trailing_slash p htrail]
    rw [if_pos (by decide)]

/-- C6 witness. -/
theorem parse_video_id_final_segment_witness :
    parse_video_id ⟨"https", "vid.plus", "" ++ "/" ++ "dQw4w9WgXcQ", ""⟩ =
      .ok "dQw4w9WgXcQ" ∧
    parse_video_id ⟨"https", "youtu.be", "/abcdefghijk/", ""⟩ =
      .error (.videoIDError "") :=
  ⟨parse_video_id_final_segment.1 "https" "vid.plus" "" "dQw4w9WgXcQ" ""
      (by decide) (by decide) (by decide) (by decide) (by decide),
    parse_video_id_final_segment.2 "https" "youtu.be" "/abcdefghijk/" ""
      (by decide) (by decide) (by decide) (by decide)⟩

/-! ## C4, C5, C7: transcript parsing -/

-- Batteries marks the rational-number arithmetic `@[irreducible]`; witnesses
-- evaluate `pyFloat` on concrete attribute strings, so restore reducibility
-- for kernel evaluation within this file.
attribute [local semireducible] Rat.add Rat.mul Rat.inv Rat.sub Rat.ofScientific

/-- A well-formed element is processed into exactly the claim's snippet. -/
theorem processElement_of_wf (e : XmlElement) (h : elementWF e) :
    processElement e = .ok (snippetOfEl e) := by
  rcases ht : e.text with _ | t
  · simp only [processElement, snippetOfEl, ht]
  · obtain ⟨⟨sAttr, hsa, hsf⟩, hdf⟩ := h t ht
    rcases hq : pyFloat sAttr with _ | st
    · rw [hq] at hsf; simp at hsf
    rcases hd : pyFloat ((attribGet e.attrib "dur").getD "0.0") with _ | du
    · rw [hd] at hdf; simp at hdf
    simp only [processElement, snippetOfEl, ht, hsa, hq, hd]

/-- The element loop maps well-formed elements to their snippets,
in order, skipping the textless ones. -/
theorem parseElements_of_wf (els : List XmlElement)
    (h : ∀ e ∈ els, elementWF e) :
    parseElements els = .ok (els.filterMap snippetOfEl) := by
  induction els with
  | nil => rfl
  | cons e rest ih =>
    have he := processElement_of_wf e (h e (List.mem_cons_self ..))
    have hrest := ih (fun x hx => h x (List.mem_cons_of_mem _ hx))
    simp only [parseElements, he, List.filterMap_cons]
    rcases hs : snippetOfEl e with _ | s
    · rw [hrest]
    · rw [hrest]

/-- C4: on a well-formed caption document, `parse_transcript` returns
one snippet per text-bearing immediate child element, in document order:
the snippet's text is the element's raw text trimmed and
entity-decoded, its `start` is the float value of the required `start`
attribute, its `duration` the float value of `dur` defaulting to `0.0`;
textless elements are skipped with order preserved. -/
theorem parse_transcript_spec (els : List XmlElement)
    (h : ∀ e ∈ els, elementWF e) :
    parse_transcript (some els) = .ok (els.filterMap snippetOfEl) :=
  parseElements_of_wf els h

/-- C4 witness: a document with a skipped textless element, an element
with entities and explicit `dur`, and an element without `dur`. -/
theorem parse_transcript_spec_witness :
    parse_transcript (some
      [⟨some "I &amp; you", [("start", "0.0"), ("dur", "1.0")]⟩,
       ⟨none, [("start", "1.0"), ("dur", "1.0")]⟩,
       ⟨some "No dur", [("start", "1.5")]⟩]) =
      .ok ([⟨some "I &amp; you", [("start", "0.0"), ("dur", "1.0")]⟩,
        ⟨none, [("start", "1.0"), ("dur", "1.0")]⟩,
        ⟨some "No dur", [("start", "1.5")]⟩].filterMap snippetOfEl) ∧
    ([⟨some "I &amp; you", [("start", "0.0"), ("dur", "1.0")]⟩,
      ⟨none, [("start", "1.0"), ("dur", "1.0")]⟩,
      ⟨some "No dur", [("start", "1.5")]⟩].filterMap snippetOfEl =
        [⟨"I & you", 0, 1⟩, ⟨"No dur", 3 / 2, 0⟩]) := by
  constructor
  · apply parse_transcript_spec
    intro e he t ht
    rcases List.mem_cons.mp he with rfl | he2
    · exact ⟨⟨"0.0", rfl, by rfl⟩, by rfl⟩
    rcases List.mem_cons.mp he2 with rfl | he3
    · exact absurd ht (by simp)
    rcases List.mem_cons.mp he3 with rfl | he4
    · exact ⟨⟨"1.5", rfl, by rfl⟩, by rfl⟩
    · exact absurd he4 (by simp)
  · decide

/-- C7: an unparseable XML document (a `ParseError` from the external
`ElementTree.fromstring`, the spec's `MalformedTranscript`) makes
`parse_transcript` fail with that error and never yields a partial or
empty snippet list. -/
theorem parse_transcript_malformed :
    parse_transcript none = .error .xmlParseError ∧
      ∀ l, parse_transcript none ≠ .ok l := by
  refine ⟨rfl, fun l h => ?_⟩
  exact absurd h (by simp [parse_transcript])

/-- Decidable equality of `Except` results, for evaluating witnesses. -/
instance exceptDecEq {ε α : Type} [DecidableEq ε] [DecidableEq α] :
    DecidableEq (Except ε α) := fun a b =>
  match a, b with
  | .ok x, .ok y => if h : x = y then isTrue (by rw [h]) else isFalse (by simp [h])
  | .error x, .error y =>
    if h : x = y then isTrue (by rw [h]) else isFalse (by simp [h])
  | .ok _, .error _ => isFalse (by simp)
  | .error _, .ok _ => isFalse (by simp)

/-- Entity decoding never turns a non-empty text into nothing. -/
theorem unescapeListF_ne_nil (fuel : Nat) (c : Char) (cs : List Char) :
    unescapeListF fuel (c :: cs) ≠ [] := by
  cases fuel with
  | zero => simp [unescapeListF]
  | succ fuel =>
    unfold unescapeListF
    split
    · simp_all
    · simp_all
    · split_ifs <;> simp
    · simp

/-- Entity decoding never turns a non-empty text into nothing. -/
theorem unescapeList_ne_nil (c : Char) (cs : List Char) :
    unescapeList (c :: cs) ≠ [] :=
  unescapeListF_ne_nil _ c cs

/-- `html.unescape` of a string is empty iff the string is. -/
theorem pyUnescape_eq_empty_iff (s : String) : pyUnescape s = "" ↔ s = "" := by
  cases s with
  | mk data =>
    cases data with
    | nil => exact ⟨fun _ => rfl, fun _ => rfl⟩
    | cons c cs =>
      constructor
      · intro h
        simp only [pyUnescape] at h
        have h2 : unescapeList (c :: cs) = [] := by
          have h3 := congrArg String.data h
          simpa using h3
        exact absurd h2 (unescapeList_ne_nil c cs)
      · intro h
        exact absurd (congrArg String.data h) (by simp)

/-- A successfully processed text-bearing element's snippet text is the
trimmed, entity-decoded raw text. -/
theorem processElement_ok_some (e : XmlElement) (sn : TranscriptSnippet)
    (h : processElement e = .ok (some sn)) :
    ∃ t, e.text = some t ∧ sn.text = pyUnescape (pyStrip t) := by
  unfold processElement at h
  rcases ht : e.text with _ | t
  · simp only [ht] at h
    exact absurd h (by simp)
  · simp only [ht] at h
    rcases ha : attribGet e.attrib "start" with _ | sa
    · simp only [ha] at h; exact absurd h (by simp)
    · simp only [ha] at h
      rcases hf : pyFloat sa with _ | st
      · simp only [hf] at h; exact absurd h (by simp)
      · simp only [hf] at h
        rcases hd : pyFloat ((attribGet e.attrib "dur").getD "0.0") with _ | du
        · simp only [hd] at h; exact absurd h (by simp)
        · simp only [hd] at h
          refine ⟨t, rfl, ?_⟩
          have h2 := Option.some.inj (Except.ok.inj h)
          rw [← h2]

/-- C5 counterexample: an element whose text node is whitespace-only is
not dropped — it produces a snippet whose `text` is the empty string,
so the returned transcript does carry an empty text. -/
theorem parse_transcript_empty_text_counterexample :
    parse_transcript (some [⟨some "  ", [("start", "0.0")]⟩]) =
      .ok [{ text := "", start := 0, duration := 0 }] ∧
    ({ text := "", start := 0, duration := 0 } : TranscriptSnippet).text = "" :=
  ⟨by decide, rfl⟩

/-- C5 amended: every snippet comes from an element with a present text
node, its text is the trimmed entity-decoded raw text, and that text is
empty exactly when the raw text trims to the empty string (for example
a whitespace-only text node) — such elements still produce a snippet,
so snippet text is not always non-empty; only elements with an absent
text node are dropped. -/
theorem parse_transcript_text_origin (els : List XmlElement)
    (l : List TranscriptSnippet) (h : parse_transcript (some els) = .ok l) :
    ∀ s ∈ l, ∃ e ∈ els, ∃ t, e.text = some t ∧
      s.text = pyUnescape (pyStrip t) ∧ (s.text = "" ↔ pyStrip t = "") := by
  induction els generalizing l with
  | nil =>
    have h2 : l = [] := (Except.ok.inj h).symm
    subst h2
    simp
  | cons e rest ih =>
    simp only [parse_transcript, parseElements] at h
    rcases hpe : processElement e with err | o
    · rw [hpe] at h; exact absurd h (by simp)
    · rw [hpe] at h
      rcases o with _ | sn
      · intro s hs
        rcases ih l h s hs with ⟨e2, he2, t, ht, hrest⟩
        exact ⟨e2, List.mem_cons_of_mem _ he2, t, ht, hrest⟩
      · rcases hrest : parseElements rest with err | l2
        · rw [hrest] at h; exact absurd h (by simp)
        · rw [hrest] at h
          have hl : l = sn :: l2 := (Except.ok.inj h).symm
          subst hl
          intro s hs
          rcases List.mem_cons.mp hs with rfl | hs2
          · rcases processElement_ok_some e s hpe with ⟨t, ht, htext⟩
            exact ⟨e, List.mem_cons_self .., t, ht, htext,
              by rw [htext]; exact pyUnescape_eq_empty_iff (pyStrip t)⟩
          · rcases ih l2 hrest s hs2 with ⟨e2, he2, t, ht, hres⟩
            exact ⟨e2, List.mem_cons_of_mem _ he2, t, ht, hres⟩

/-- C5 amended witness: the whitespace-only element of the
counterexample instantiates the amended statement. -/
theorem parse_transcript_text_origin_witness :
    ∃ e ∈ ([⟨some "  ", [("start", "0.0")]⟩] : List XmlElement), ∃ t,
      XmlElement.text e = some t ∧
      ({ text := "", start := 0, duration := 0 } : TranscriptSnippet).text =
        pyUnescape (pyStrip t) ∧
      (({ text := "", start := 0, duration := 0 } :
        TranscriptSnippet).text = "" ↔ pyStrip t = "") :=
  parse_transcript_text_origin [⟨some "  ", [("start", "0.0")]⟩]
    [{ text := "", start := 0, duration := 0 }] (by decide)
    { text := "", start := 0, duration := 0 } (by simp)

/-! ## Supporting lemmas: marker search in `parse_captions` -/

/-- `leadsWith` is the prefix relation. -/
theorem leadsWith_true_iff (s : List Char) :
    ∀ l, leadsWith s l = true ↔ s <+: l := by
  induction s with
  | nil => intro l; simp [leadsWith]
  | cons a as ih =>
    intro l
    cases l with
    | nil => simp [leadsWith]
    | cons b bs =>
      simp [leadsWith, List.cons_prefix_cons, ih bs, Bool.and_eq_true,
        beq_iff_eq]

/-- A split has at least two pieces exactly when the separator occurs as
a contiguous substring. -/
theorem two_le_listSplitOn_length_iff_aux (sep : List Char) (hsep : sep ≠ []) :
    ∀ (n : Nat) (l : List Char), l.length ≤ n →
      (2 ≤ (listSplitOn sep l).length ↔ sep <:+: l) := by
  intro n
  induction n with
  | zero =>
    intro l hl
    have : l = [] := List.length_eq_zero.mp (Nat.le_zero.mp hl)
    subst this
    simp only [listSplitOn, listSplitOnF, List.length_singleton]
    constructor
    · omega
    · intro h
      exact absurd (List.eq_nil_of_infix_nil h) hsep
  | succ n ih =>
    intro l hl
    cases l with
    | nil =>
      simp only [listSplitOn, listSplitOnF, List.length_singleton]
      constructor
      · omega
      · intro h
        exact absurd (List.eq_nil_of_infix_nil h) hsep
    | cons c cs =>
      rw [listSplitOn_cons]
      by_cases hpre : leadsWith sep (c :: cs) = true
      · rw [if_pos ⟨hsep, hpre⟩]
        have h1 : 1 ≤ (listSplitOn sep ((c :: cs).drop sep.length)).length :=
          List.length_pos.mpr (listSplitOn_ne_nil _ _)
        constructor
        · intro _
          rcases (leadsWith_true_iff sep (c :: cs)).mp hpre with ⟨t, ht⟩
          exact ⟨[], t, by simpa using ht⟩
        · intro _
          simp only [List.length_cons]
          omega
      · rw [if_neg (fun hc => hpre hc.2)]
        have hle : cs.length ≤ n := by
          simp only [List.length_cons] at hl
          omega
        rcases h3 : listSplitOn sep cs with _ | ⟨r, rs⟩
        · exact absurd h3 (listSplitOn_ne_nil _ _)
        · have hlen : (listSplitOn sep cs).length = ((c :: r) :: rs).length := by
            rw [h3]
            simp
          rw [← hlen, ih cs hle, List.infix_cons_iff]
          constructor
          · exact fun h => Or.inr h
          · rintro (h | h)
            · exact absurd ((leadsWith_true_iff sep (c :: cs)).mpr h) hpre
            · exact h

/-- Wrapper with the canonical bound. -/
theorem two_le_listSplitOn_length_iff (sep l : List Char) (hsep : sep ≠ []) :
    2 ≤ (listSplitOn sep l).length ↔ sep <:+: l :=
  two_le_listSplitOn_length_iff_aux sep hsep l.length l (Nat.le_refl _)

/-- The extraction phase errors only with the marker-absent error. -/
theorem extractPlayerResponseData_error_kind (html : String)
    (e : TranscriptFailure) (h : extractPlayerResponseData html = .error e) :
    e = .initialPlayerResponseNotFound := by
  unfold extractPlayerResponseData at h
  split at h
  · exact absurd h (by simp)
  · exact (Except.error.inj h).symm

/-- The extraction phase fails exactly when the marker literal does not
occur in the page. -/
theorem extractPlayerResponseData_error_iff (html : String) :
    extractPlayerResponseData html = .error .initialPlayerResponseNotFound ↔
      ¬ (PLAYER_RESPONSE_MARKER.data <:+: html.data) := by
  have hm : PLAYER_RESPONSE_MARKER.data ≠ [] := by decide
  rw [← two_le_listSplitOn_length_iff PLAYER_RESPONSE_MARKER.data html.data hm]
  unfold extractPlayerResponseData
  rcases h : listSplitOn PLAYER_RESPONSE_MARKER.data html.data with _ | ⟨a, rest⟩
  · exact absurd h (listSplitOn_ne_nil _ _)
  · cases rest with
    | nil => simp
    | cons second rest2 => simp

/-- Validating a track yields either the validation error or a track. -/
theorem trackOfJson_cases (j : Json) :
    trackOfJson j = .error .validationError ∨ ∃ t, trackOfJson j = .ok t := by
  unfold trackOfJson
  repeat' split
  all_goals first
  | exact Or.inl rfl
  | exact Or.inr ⟨_, rfl⟩

/-- Validating a track list yields either the validation error or a
track list. -/
theorem tracksOfJsonList_cases (xs : List Json) :
    tracksOfJsonList xs = .error .validationError ∨
      ∃ ts, tracksOfJsonList xs = .ok ts := by
  induction xs with
  | nil => exact Or.inr ⟨[], rfl⟩
  | cons x rest ih =>
    simp only [tracksOfJsonList]
    rcases trackOfJson_cases x with h1 | ⟨t, h1⟩ <;> rw [h1]
    · exact Or.inl rfl
    · rcases ih with h2 | ⟨ts, h2⟩ <;> rw [h2]
      · exact Or.inl rfl
      · exact Or.inr ⟨t :: ts, rfl⟩

/-- `model_validate` yields either the validation error or a catalog. -/
theorem modelValidateCaptions_cases (j : Json) :
    modelValidateCaptions j = .error .validationError ∨
      ∃ c, modelValidateCaptions j = .ok c := by
  unfold modelValidateCaptions
  split
  · split
    · rename_i elems heq
      rcases tracksOfJsonList_cases elems with h2 | ⟨ts, h2⟩ <;> rw [h2]
      · exact Or.inl rfl
      · exact Or.inr ⟨_, rfl⟩
    · exact Or.inl rfl
  · exact Or.inl rfl

/-- The renderer check yields a catalog or one of three error kinds. -/
theorem rendererCheck_cases (renderer : Json) :
    (∃ c, rendererCheck renderer = .ok c) ∨
      rendererCheck renderer = .error .captionsNotFound ∨
      rendererCheck renderer = .error .attributeTypeError ∨
      rendererCheck renderer = .error .validationError := by
  unfold rendererCheck
  split
  · exact Or.inr (Or.inl rfl)
  · split
    · exact Or.inr (Or.inr (Or.inl rfl))
    · exact Or.inr (Or.inl rfl)
    · rcases modelValidateCaptions_cases renderer with h | ⟨c, h⟩ <;> rw [h]
      · exact Or.inr (Or.inr (Or.inr rfl))
      · exact Or.inl ⟨_, rfl⟩

/-- The captions-value navigation yields the same closed set. -/
theorem captionsNavigate_cases (v : Json) :
    (∃ c, captionsNavigate v = .ok c) ∨
      captionsNavigate v = .error .captionsNotFound ∨
      captionsNavigate v = .error .attributeTypeError ∨
      captionsNavigate v = .error .validationError := by
  unfold captionsNavigate
  split
  · split
    · exact Or.inr (Or.inl rfl)
    · rename_i renderer heq
      exact rendererCheck_cases renderer
  · exact Or.inr (Or.inr (Or.inl rfl))

/-- The navigation phase yields a catalog or one of its three error
kinds — never the marker or JSON-decoding errors. -/
theorem captionsOfJson_cases (j : Json) :
    (∃ c, captionsOfJson j = .ok c) ∨
      captionsOfJson j = .error .captionsNotFound ∨
      captionsOfJson j = .error .attributeTypeError ∨
      captionsOfJson j = .error .validationError := by
  unfold captionsOfJson
  split
  · rename_i fields
    exact captionsNavigate_cases _
  · exact Or.inr (Or.inr (Or.inl rfl))

/-- Error kinds of the navigation phase. -/
theorem captionsOfJson_error_kind (j : Json) (e : TranscriptFailure)
    (h : captionsOfJson j = .error e) :
    e = .captionsNotFound ∨ e = .attributeTypeError ∨ e = .validationError := by
  rcases captionsOfJson_cases j with ⟨c, h2⟩ | h2 | h2 | h2 <;> rw [h2] at h
  · exact absurd h (by simp)
  · exact Or.inl (Except.error.inj h).symm
  · exact Or.inr (Or.inl (Except.error.inj h).symm)
  · exact Or.inr (Or.inr (Except.error.inj h).symm)

/-- The claim's navigation condition, in the spec's words: the decoded
object's `captions` → caption-track-list renderer section is absent, or
present as an object that lacks a `captionTracks` entry. -/
def rendererAbsentOrNoTracks : Json → Bool
  | .obj fields =>
    match jsonGet fields "captions" with
    | none => true
    | some (.obj cfields) =>
      match jsonGet cfields "playerCaptionsTracklistRenderer" with
      | none => true
      | some (.obj rfields) => (jsonGet rfields "captionTracks").isNone
      | some _ => false
    | some _ => false
  | _ => false

/-- C8: `parse_captions` fails with `InitialPlayerResponseNotFoundError`
(the spec's `ConfigNotFound`) exactly when the marker literal is absent
from the page; a decode failure of the extracted substring surfaces as a
JSON-decoding error, which is distinguishable from the marker-absent
error; and a decoded object whose captions → caption-track-list renderer
section is absent or lacks a caption-track entry fails with
`CaptionsNotFoundError`. -/
theorem parse_captions_error_taxonomy (loads : String → Except String Json)
    (html : String) :
    (parse_captions loads html = .error .initialPlayerResponseNotFound ↔
      ¬ (PLAYER_RESPONSE_MARKER.data <:+: html.data)) ∧
    (∀ data msg, extractPlayerResponseData html = .ok data →
      loads data = .error msg →
      parse_captions loads html = .error (.jsonDecodeError msg)) ∧
    (∀ msg, TranscriptFailure.jsonDecodeError msg ≠
      TranscriptFailure.initialPlayerResponseNotFound) ∧
    (∀ data j, extractPlayerResponseData html = .ok data → loads data = .ok j →
      rendererAbsentOrNoTracks j = true →
      parse_captions loads html = .error .captionsNotFound) := by
  refine ⟨?_, ?_, ?_, ?_⟩
  · constructor
    · intro h
      rcases hex : extractPlayerResponseData html with e | data
      · have he := extractPlayerResponseData_error_kind html e hex
        exact (extractPlayerResponseData_error_iff html).mp (he ▸ hex)
      · exfalso
        rcases hld : loads data with msg | j
        · have h2 : parse_captions loads html = .error (.jsonDecodeError msg) := by
            simp [parse_captions, hex, hld]
          rw [h2] at h
          exact absurd (Except.error.inj h) (by simp)
        · have h2 : parse_captions loads html = captionsOfJson j := by
            simp [parse_captions, hex, hld]
          rw [h2] at h
          rcases captionsOfJson_error_kind j _ h with h3 | h3 | h3 <;>
            simp at h3
    · intro h
      have hex := (extractPlayerResponseData_error_iff html).mpr h
      simp [parse_captions, hex]
  · intro data msg hex hld
    simp [parse_captions, hex, hld]
  · intro msg
    simp
  · intro data j hex hld hmiss
    simp only [parse_captions, hex, hld]
    cases j with
    | obj fields =>
      simp only [rendererAbsentOrNoTracks] at hmiss
      show captionsOfJson (.obj fields) = .error .captionsNotFound
      simp only [captionsOfJson]
      rcases hc : jsonGet fields "captions" with _ | cval
      · simp [captionsNavigate, jsonGet]
      · rw [hc] at hmiss
        cases cval <;> simp at hmiss
        case obj cfields =>
          simp only [Option.getD_some, captionsNavigate]
          rcases hr : jsonGet cfields "playerCaptionsTracklistRenderer"
            with _ | r
          · rfl
          · rw [hr] at hmiss
            cases r <;> simp at hmiss
            case obj rfields =>
              show rendererCheck (.obj rfields) = .error .captionsNotFound
              simp only [rendererCheck]
              rcases hrf : rfields with _ | ⟨p, ps⟩
              · simp [pyFalsy]
              · have hfalsy : pyFalsy (.obj (p :: ps)) = false := by
                  simp [pyFalsy]
                rw [hfalsy]
                simp only [Bool.false_eq_true, if_false, pyHasMember]
                rw [← hrf]
                rw [hmiss]
                simp
    | null => simp [rendererAbsentOrNoTracks] at hmiss
    | bool b => simp [rendererAbsentOrNoTracks] at hmiss
    | num q => simp [rendererAbsentOrNoTracks] at hmiss
    | str s => simp [rendererAbsentOrNoTracks] at hmiss
    | arr xs => simp [rendererAbsentOrNoTracks] at hmiss

/-- C8 witness: a marker-less page; a page whose embedded object fails
to decode; and a decoded object with no captions section. -/
theorem parse_captions_error_taxonomy_witness :
    parse_captions (fun _ => .ok (.obj [])) "hello" =
      .error .initialPlayerResponseNotFound ∧
    parse_captions (fun _ => .error "bad")
      "var ytInitialPlayerResponse = 1 </script>" =
      .error (.jsonDecodeError "bad") ∧
    parse_captions (fun _ => .ok (.obj []))
      "var ytInitialPlayerResponse = 1 </script>" =
      .error .captionsNotFound :=
  ⟨(parse_captions_error_taxonomy (fun _ => .ok (.obj [])) "hello").1.mpr
      (by decide),
    (parse_captions_error_taxonomy (fun _ => .error "bad")
        "var ytInitialPlayerResponse = 1 </script>").2.1 " 1 " "bad"
      (by rfl) rfl,
    (parse_captions_error_taxonomy (fun _ => .ok (.obj []))
        "var ytInitialPlayerResponse = 1 </script>").2.2.2 " 1 " (.obj [])
      (by rfl) rfl (by rfl)⟩
